import Mathlib

/-!
Verification of the search engine of the Hyperactive optimizer package
(`base_optimizer.py`, `random_search.py`).

The embedding below translates the relevant methods of `BaseOptimizer` and
`RandomSearchOptimizer` into Lean:

* `set_n_steps` embeds `BaseOptimizer._set_n_steps` (iteration apportioning).
* `set_random_seed` embeds `BaseOptimizer._set_random_seed`; the three seeded
  generators (`random`, `np.random`, `scipy.random`) are modelled as a record
  of `Option Int` seeds, `none` meaning the generator was left unseeded.
* `Candidate`, `commitStep`, `randomSearch` embed the per-job loop body of
  `RandomSearchOptimizer.search` (evaluate, compare with `score_best`, commit
  on strict improvement).  External evaluations are supplied as an explicit
  list of (position, score) pairs, since the scoring function is an external
  collaborator.
* `searchJob` embeds the same loop together with its loop bound: the source
  iterates `for i in range(self.n_iter)` (the call to `_set_n_steps` in
  `_init_search` is commented out in the source), and the second component
  counts the iterations actually executed.
-/

namespace Hyperactive

/-- Embedding of `BaseOptimizer._set_n_steps`:
`n_steps = int(n_iter / n_jobs)` (floor division for nonnegative ints),
`remain = n_iter % n_jobs`, plus one when `nth_process < remain`. -/
def set_n_steps (n_iter n_jobs nth_process : Nat) : Nat :=
  let n_steps := n_iter / n_jobs
  let remain := n_iter % n_jobs
  if nth_process < remain then n_steps + 1 else n_steps

/-- The three process-global generators seeded by `_set_random_seed`
(`random.seed`, `np.random.seed`, `scipy.random.seed`).  A field holds
`some s` when the generator has been seeded with `s`, and `none` when it
was left in its process-default, unseeded state. -/
structure RandomSources where
  py : Option Int
  np : Option Int
  scipy : Option Int
  deriving Repr, DecidableEq

/-- Generators before `_set_random_seed` runs: nothing seeded. -/
def unseededSources : RandomSources :=
  ⟨none, none, none⟩

/-- Python truthiness of the `random_state` attribute (`None` and `0` are
falsy, every other int is truthy), as tested by `if self.random_state:`. -/
def pyTruthy : Option Int → Bool
  | none => false
  | some r => r != 0

/-- Embedding of `BaseOptimizer._set_random_seed`.  Both branches of the
source seed all three generators with `rand + thread`; the truthy branch uses
`rand = int(self.random_state)`, the falsy branch uses `rand = 0`. -/
def set_random_seed (random_state : Option Int) (thread : Int) : RandomSources :=
  if pyTruthy random_state then
    let rand := random_state.getD 0
    ⟨some (rand + thread), some (rand + thread), some (rand + thread)⟩
  else
    let rand : Int := 0
    ⟨some (rand + thread), some (rand + thread), some (rand + thread)⟩

/-- The mutable per-job state of a candidate, as used by
`RandomSearchOptimizer.search`: current position/score and best
position/score.  Positions are abstract (here `Nat`), scores are ints. -/
structure Candidate where
  pos : Nat
  score : Int
  pos_best : Nat
  score_best : Int
  deriving Repr, DecidableEq

/-- State after the initial evaluation in `RandomSearchOptimizer.search`:
`_cand_.eval(X, y)` followed by `score_best = score; pos_best = pos`. -/
def initCandidate (p : Nat) (s : Int) : Candidate :=
  ⟨p, s, p, s⟩

/-- One iteration of the loop body of `RandomSearchOptimizer.search`:
`_move` and `eval` set the current position and score, then
`if _cand_.score > _cand_.score_best:` commits both best fields. -/
def commitStep (c : Candidate) (p : Nat) (s : Int) : Candidate :=
  let c1 : Candidate := { c with pos := p, score := s }
  if c1.score > c1.score_best then
    { c1 with score_best := c1.score, pos_best := c1.pos }
  else
    c1

/-- The whole `RandomSearchOptimizer.search` loop driven by an explicit
trace: `init` is the (position, score) of the initial evaluation and
`steps` the successive (position, score) pairs produced by `_move`/`eval`. -/
def randomSearch (init : Nat × Int) (steps : List (Nat × Int)) : Candidate :=
  steps.foldl (fun c ps => commitStep c ps.1 ps.2) (initCandidate init.1 init.2)

/-- The search loop together with its loop bound as written in the source:
`for i in range(self.n_iter)` (both in `BaseOptimizer.search` and in the
tqdm iterable of `RandomSearchOptimizer.search`), one evaluation per
iteration supplied by `evals`.  The second component counts the loop
iterations actually executed by this job. -/
def searchJob (n_iter : Nat) (evals : Nat → Nat × Int) (init : Nat × Int) :
    Candidate × Nat :=
  (List.range n_iter).foldl
    (fun st i => (commitStep st.1 (evals i).1 (evals i).2, st.2 + 1))
    (initCandidate init.1 init.2, 0)

/-- Tie order of `np.argsort` on the index list `range n`: ascending by key,
with equal keys kept in increasing index order (the stable tie convention,
which is what numpy produces on the small result arrays at hand, where its
introsort reduces to insertion sort). -/
def argsortLe (xs : List Int) (i j : Nat) : Prop :=
  xs.getD i 0 < xs.getD j 0 ∨ (xs.getD i 0 = xs.getD j 0 ∧ i ≤ j)

instance argsortLeDecidable (xs : List Int) : DecidableRel (argsortLe xs) :=
  fun i j =>
    inferInstanceAs
      (Decidable (xs.getD i 0 < xs.getD j 0 ∨ (xs.getD i 0 = xs.getD j 0 ∧ i ≤ j)))

instance argsortLeTotal (xs : List Int) : IsTotal Nat (argsortLe xs) :=
  ⟨fun i j => by unfold argsortLe; omega⟩

instance argsortLeTrans (xs : List Int) : IsTrans Nat (argsortLe xs) :=
  ⟨fun i j k hij hjk => by unfold argsortLe at *; omega⟩

/-- `sort_by.argsort()` from `_sort_for_best`: the indices of `sort_by`
sorted ascending by value. -/
def argsort (xs : List Int) : List Nat :=
  List.insertionSort (argsortLe xs) (List.range xs.length)

/-- `index_best = list(sort_by.argsort()[::-1])` from
`BaseOptimizer._sort_for_best`: descending order of value. -/
def index_best (sort_by : List Int) : List Nat :=
  (argsort sort_by).reverse

/-- The job index that `_run_multiple_jobs` promotes to the overall result:
`index_best[0]`, i.e. the position of `score_best_sorted[0]` and
`model_best_sorted[0]` in the id-ordered `_cand_list` from `pool.map`. -/
def winnerIdx (score_best_list : List Int) : Option Nat :=
  (index_best score_best_list).head?

/-- One iteration of the fallible search loop: an exception already raised
earlier skips the rest of the loop, and an exception from the current
evaluation is raised as is. -/
def searchStepE (evals : Nat → Except String (Nat × Int))
    (acc : Except String Candidate) (i : Nat) : Except String Candidate :=
  match acc with
  | Except.error e => Except.error e
  | Except.ok c =>
    match evals i with
    | Except.error e => Except.error e
    | Except.ok ps => Except.ok (commitStep c ps.1 ps.2)

/-- `RandomSearchOptimizer.search` with a fallible external scoring function:
the source wraps no evaluation in try/except, so an exception raised by
evaluation `i` propagates out of the loop unchanged.  `init` is the result of
the initial evaluation done during `_init_search`. -/
def searchJobE (n_iter : Nat) (evals : Nat → Except String (Nat × Int))
    (init : Except String (Nat × Int)) : Except String Candidate :=
  match init with
  | Except.error e => Except.error e
  | Except.ok p =>
    (List.range n_iter).foldl (searchStepE evals) (Except.ok (initCandidate p.1 p.2))

/-- Collecting one job result: the exception of the earliest job id wins,
matching how `pool.map` surfaces the first failed result while assembling
the id-ordered result list. -/
def collectStepE (jobs : Nat → Except String Candidate) (k : Nat)
    (acc : Except String (List Candidate)) : Except String (List Candidate) :=
  match jobs k with
  | Except.error e => Except.error e
  | Except.ok c =>
    match acc with
    | Except.error e2 => Except.error e2
    | Except.ok cs => Except.ok (c :: cs)

/-- `BaseOptimizer._search_multiprocessing`: `pool.map(search, range(n_jobs))`
collects the per-job results in job-id order; a worker exception is re-raised
unchanged in the parent (the source installs no handler and defines no
wrapper exception type). -/
def runMultipleJobsE (n_jobs : Nat) (jobs : Nat → Except String Candidate) :
    Except String (List Candidate) :=
  (List.range n_jobs).foldr (collectStepE jobs) (Except.ok [])

/-- Embedding of `BaseOptimizer._get_sklearn_model`.  `choice` stands for
`random.choice`; the boolean records whether this call printed the
"Not enough jobs to process models" report.  In every reachable branch the
list access `model_list[nth_process]` is in range, so `getD` with a dummy
default is a faithful translation. -/
def get_sklearn_model (model_list : List String) (n_jobs : Nat)
    (choice : List String → String) (nth_process : Nat) : String × Bool :=
  let n_models := model_list.length
  if n_models > n_jobs then
    (model_list.getD nth_process "", nth_process == 0)
  else if nth_process < n_models then
    (model_list.getD nth_process "", false)
  else
    (choice model_list, false)

/-- The dynamic type of a value passed as `X` or `y`, as far as
`_check_data` can observe it: a pandas DataFrame (with payload), a numpy
ndarray (with payload), or anything else. -/
inductive PyData where
  | dataFrame (values : List Int)
  | ndarray (values : List Int)
  | other
  deriving Repr, DecidableEq

/-- The `.values` attribute: on a DataFrame it yields the underlying ndarray;
the source only reads it after an isinstance DataFrame check. -/
def PyData.values : PyData → PyData
  | PyData.dataFrame v => PyData.ndarray v
  | d => d

/-- `isinstance(d, pd.core.frame.DataFrame)`. -/
def isDataFrame : PyData → Bool
  | PyData.dataFrame _ => true
  | _ => false

/-- Embedding of `BaseOptimizer._check_data`: the second `if` tests the
(already reassigned) `X` again, not `y`, exactly as in the source. -/
def check_data (X y : PyData) : PyData × PyData :=
  let X2 := if isDataFrame X then X.values else X
  let y2 := if isDataFrame X2 then y.values else y
  (X2, y2)

/-- How `BaseOptimizer.fit` dispatches the search after `_check_data`. -/
inductive Dispatch where
  | single
  | pool (jobs : List Nat)
  deriving Repr, DecidableEq

/-- Embedding of the dispatch logic of `BaseOptimizer.fit`:
`_n_process_range = range(0, n_jobs)` is fixed at construction time; `fit`
overwrites `n_jobs` with 1 for the "keras" model type, then branches on
`n_jobs == 1` between `_run_one_job` and `_run_multiple_jobs` (whose
`pool.map` iterates over `_n_process_range`). -/
def fitDispatch (model_type : String) (n_jobs : Nat) : Dispatch :=
  let n_process_range := List.range n_jobs
  let n_jobs2 := if model_type = "keras" then 1 else n_jobs
  if n_jobs2 = 1 then Dispatch.single
  else Dispatch.pool n_process_range

example : set_n_steps 10 3 0 = 4 := by decide
example : set_n_steps 10 3 1 = 3 := by decide
example : set_n_steps 7 4 3 = 1 := by decide
example : set_random_seed none 3 = ⟨some 3, some 3, some 3⟩ := by decide
example : (searchJob 3 (fun _ => (0, 0)) (0, 0)).2 = 3 := by decide
example : (randomSearch (0, 5) [(1, 3), (2, 7)]).score_best = 7 := by decide
example : (randomSearch (0, 5) [(1, 3), (2, 7)]).pos_best = 2 := by decide
example : winnerIdx [5, 5] = some 1 := by decide
example : winnerIdx [3, 7, 7] = some 2 := by decide
example : winnerIdx [3, 7, 2] = some 1 := by decide
example : check_data (PyData.dataFrame [1]) (PyData.dataFrame [2])
    = (PyData.ndarray [1], PyData.dataFrame [2]) := by decide
example : fitDispatch "keras" 4 = Dispatch.single := by decide
example : fitDispatch "sklearn" 3 = Dispatch.pool [0, 1, 2] := by decide
example : get_sklearn_model ["a", "b", "c"] 2 (fun _ => "z") 0 = ("a", true) := by decide
example : get_sklearn_model ["a"] 2 (fun l => l.getD 0 "") 1 = ("a", false) := by decide

/-! ### Helper lemmas -/

lemma sum_indicator_lt (N r : Nat) (h : r ≤ N) :
    (∑ k in Finset.range N, (if k < r then 1 else 0)) = r := by
  induction N with
  | zero =>
    have hr0 : r = 0 := by omega
    simp [hr0]
  | succ n ih =>
    rw [Finset.sum_range_succ]
    by_cases hr : r ≤ n
    · have hn : ¬ (n < r) := by omega
      rw [ih hr, if_neg hn, Nat.add_zero]
    · have hr2 : r = n + 1 := by omega
      subst hr2
      have hall : ∀ k ∈ Finset.range n, (if k < n + 1 then 1 else 0) = 1 := by
        intro k hk
        rw [Finset.mem_range] at hk
        exact if_pos (by omega)
      rw [Finset.sum_congr rfl hall, Finset.sum_const, Finset.card_range, if_pos (by omega),
        smul_eq_mul, Nat.mul_one]

lemma commitStep_score_best (c : Candidate) (p : Nat) (s : Int) :
    (commitStep c p s).score_best = max c.score_best s := by
  simp only [commitStep]
  split_ifs with h <;> simp_all <;> omega

lemma commitStep_tie (c : Candidate) (p : Nat) :
    (commitStep c p c.score_best).score_best = c.score_best
    ∧ (commitStep c p c.score_best).pos_best = c.pos_best := by
  simp [commitStep]

lemma foldl_commit_score_best (steps : List (Nat × Int)) :
    ∀ c : Candidate,
      (steps.foldl (fun c ps => commitStep c ps.1 ps.2) c).score_best
        = (steps.map Prod.snd).foldl max c.score_best := by
  induction steps with
  | nil => intro c; rfl
  | cons a l ih =>
    intro c
    simp only [List.foldl_cons, List.map_cons, ih, commitStep_score_best]

lemma le_foldl_max (a : Int) (l : List Int) : a ≤ l.foldl max a := by
  induction l generalizing a with
  | nil => simp
  | cons x l ih =>
    simp only [List.foldl_cons]
    exact le_trans (le_max_left a x) (ih (max a x))

lemma mem_le_foldl_max : ∀ (l : List Int) (a x : Int), x ∈ l → x ≤ l.foldl max a
  | [], _, x, hx => absurd hx (List.not_mem_nil x)
  | b :: l, a, x, hx => by
    rcases List.mem_cons.mp hx with rfl | h
    · simpa [List.foldl_cons] using le_trans (le_max_right a x) (le_foldl_max (max a x) l)
    · simpa [List.foldl_cons] using mem_le_foldl_max l (max a b) x h

lemma foldl_max_mem (l : List Int) : ∀ a : Int, l.foldl max a ∈ a :: l := by
  induction l with
  | nil => intro a; simp
  | cons b l ih =>
    intro a
    have h := ih (max a b)
    simp only [List.foldl_cons]
    rcases List.mem_cons.mp h with heq | hmem
    · rcases max_choice a b with h1 | h1 <;> rw [heq, h1] <;> simp
    · exact List.mem_cons_of_mem a (List.mem_cons_of_mem b hmem)

lemma searchJob_count (n_iter : Nat) (evals : Nat → Nat × Int) (init : Nat × Int) :
    (searchJob n_iter evals init).2 = n_iter := by
  suffices h : ∀ (l : List Nat) (c : Candidate) (m : Nat),
      (l.foldl (fun st i => (commitStep st.1 (evals i).1 (evals i).2, st.2 + 1))
        (c, m)).2 = m + l.length by
    simpa [searchJob] using h (List.range n_iter) (initCandidate init.1 init.2) 0
  intro l
  induction l with
  | nil => intro c m; simp
  | cons a l ih =>
    intro c m
    simp only [List.foldl_cons, List.length_cons, ih]
    omega

lemma foldl_searchStepE_ok (evals : Nat → Except String (Nat × Int)) :
    ∀ (l : List Nat), (∀ j ∈ l, ∃ ps, evals j = Except.ok ps) →
      ∀ c : Candidate, ∃ c2, l.foldl (searchStepE evals) (Except.ok c) = Except.ok c2
  | [], _, c => ⟨c, rfl⟩
  | a :: l, h, c => by
    obtain ⟨ps, hps⟩ := h a (List.mem_cons_self a l)
    have hrest := foldl_searchStepE_ok evals l
      (fun j hj => h j (List.mem_cons_of_mem a hj)) (commitStep c ps.1 ps.2)
    simpa [List.foldl_cons, searchStepE, hps] using hrest

lemma searchJobE_first_error (evals : Nat → Except String (Nat × Int)) (e : String)
    (i : Nat) (hfail : evals i = Except.error e)
    (hprev : ∀ j, j < i → ∃ ps, evals j = Except.ok ps) :
    ∀ (n : Nat) (c : Candidate), i < n →
      (List.range n).foldl (searchStepE evals) (Except.ok c) = Except.error e := by
  intro n
  induction n with
  | zero => intro c h; omega
  | succ n ih =>
    intro c hn
    rw [List.range_succ, List.foldl_append]
    by_cases h : i < n
    · rw [ih c h]
      simp [searchStepE]
    · have hin : i = n := by omega
      subst hin
      obtain ⟨c2, hc2⟩ := foldl_searchStepE_ok evals (List.range i)
        (fun j hj => hprev j (List.mem_range.mp hj)) c
      rw [hc2]
      simp [searchStepE, hfail]

lemma foldr_collect_allok (jobs : Nat → Except String Candidate) (e : String) :
    ∀ (l : List Nat), (∀ j ∈ l, ∃ c, jobs j = Except.ok c) →
      l.foldr (collectStepE jobs) (Except.error e) = Except.error e
  | [], _ => rfl
  | a :: l, h => by
    obtain ⟨c, hc⟩ := h a (List.mem_cons_self a l)
    have hrest := foldr_collect_allok jobs e l (fun j hj => h j (List.mem_cons_of_mem a hj))
    simp [List.foldr_cons, collectStepE, hc, hrest]

lemma foldr_collect_first_error (jobs : Nat → Except String Candidate) (e : String)
    (k : Nat) (hfail : jobs k = Except.error e)
    (hprev : ∀ j, j < k → ∃ c, jobs j = Except.ok c) :
    ∀ (n : Nat) (b : Except String (List Candidate)), k < n →
      (List.range n).foldr (collectStepE jobs) b = Except.error e := by
  intro n
  induction n with
  | zero => intro b h; omega
  | succ n ih =>
    intro b hk
    rw [List.range_succ, List.foldr_append]
    by_cases h : k < n
    · exact ih _ h
    · have hkn : k = n := by omega
      subst hkn
      have hb2 : List.foldr (collectStepE jobs) b [k] = Except.error e := by
        simp [collectStepE, hfail]
      rw [hb2]
      exact foldr_collect_allok jobs e (List.range k)
        (fun j hj => hprev j (List.mem_range.mp hj))

/-! ### Claim theorems -/

/-- C1 (counterexample): the claim says each job's iteration loop executes
exactly its apportioned share `_set_n_steps(nth_process)`.  At `n_iter = 3`,
`n_jobs = 2`, job 0 the loop executes 3 iterations while the apportioned
share is 2: the loop bound is `range(self.n_iter)`, not the apportioned
share (the call to `_set_n_steps` is commented out in `_init_search`). -/
theorem C1_counterexample :
    ¬ ((searchJob 3 (fun _ => (0, 0)) (0, 0)).2 = set_n_steps 3 2 0) := by
  decide

/-- C1 (amended): every job executes the full `n_iter` iterations of the
search loop, so `n_jobs` parallel jobs execute `n_jobs * n_iter` iterations
in total, not `n_iter`. -/
theorem C1_amended (n_jobs n_iter : Nat) (evalsFam : Nat → Nat → Nat × Int)
    (init : Nat × Int) :
    (∀ k, (searchJob n_iter (evalsFam k) init).2 = n_iter)
    ∧ (∑ k in Finset.range n_jobs, (searchJob n_iter (evalsFam k) init).2)
        = n_jobs * n_iter := by
  have h : ∀ k, (searchJob n_iter (evalsFam k) init).2 = n_iter :=
    fun k => searchJob_count n_iter (evalsFam k) init
  refine ⟨h, ?_⟩
  rw [Finset.sum_congr rfl (fun k _ => h k), Finset.sum_const, Finset.card_range,
    smul_eq_mul]

/-- C2 (counterexample): with no base seed supplied (`random_state = None`)
the claim says the job uses an unseeded, process-default random source; the
code instead seeds all three generators with the fixed deterministic value
`0 + thread` (here thread 3 gets seed 3). -/
theorem C2_counterexample :
    set_random_seed none 3 = ⟨some 3, some 3, some 3⟩
    ∧ ¬ (set_random_seed none 3 = unseededSources) := by
  decide

/-- C2 (amended): with a truthy base seed, every generator of job `thread`
is seeded with `base_seed + thread`; with `random_state = None` (or the falsy
`0`) the generators are still seeded, deterministically, with `0 + thread`. -/
theorem C2_amended :
    (∀ r t : Int, r ≠ 0 →
      set_random_seed (some r) t = ⟨some (r + t), some (r + t), some (r + t)⟩)
    ∧ (∀ t : Int, set_random_seed none t = ⟨some t, some t, some t⟩)
    ∧ (∀ t : Int, set_random_seed (some 0) t = ⟨some t, some t, some t⟩) := by
  refine ⟨fun r t hr => ?_, fun t => ?_, fun t => ?_⟩
  · have htr : pyTruthy (some r) = true := by simp [pyTruthy, hr]
    simp [set_random_seed, htr]
  · simp [set_random_seed, pyTruthy]
  · simp [set_random_seed, pyTruthy]

/-- C2 (witness): base seed 5, job 2 seeds every generator with 7. -/
theorem C2_witness :
    set_random_seed (some 5) 2 = ⟨some 7, some 7, some 7⟩ :=
  C2_amended.1 5 2 (by decide)

/-- C3 (counterexample): two jobs tie on the maximum score 5; the reduction
built on `argsort()[::-1]` selects job 1, not the lowest job id 0 as
claimed. -/
theorem C3_counterexample :
    ¬ (winnerIdx [5, 5] = some 0) ∧ winnerIdx [5, 5] = some 1 := by
  decide

/-- C3 (amended): for a nonempty id-ordered list of per-job best scores the
reduction picks a job attaining the maximum score, and among tied jobs the
one with the highest job id; the winner is therefore fixed by the scores
alone (order-independent) only when the maximum is attained uniquely. -/
theorem C3_highest_id_wins (scores : List Int) (h : scores ≠ []) :
    ∃ w, winnerIdx scores = some w ∧ w < scores.length
      ∧ ∀ j, j < scores.length →
          (scores.getD j 0 ≤ scores.getD w 0
            ∧ (scores.getD j 0 = scores.getD w 0 → j ≤ w)) := by
  have hperm : (argsort scores).Perm (List.range scores.length) :=
    List.perm_insertionSort (argsortLe scores) (List.range scores.length)
  have hsort : List.Sorted (argsortLe scores) (argsort scores) :=
    List.sorted_insertionSort (argsortLe scores) (List.range scores.length)
  have hmem : ∀ j, j ∈ argsort scores ↔ j < scores.length := by
    intro j
    rw [hperm.mem_iff, List.mem_range]
  have hlen : (argsort scores).length = scores.length := by
    rw [hperm.length_eq, List.length_range]
  obtain ⟨w, rest, hrev⟩ : ∃ w rest, (argsort scores).reverse = w :: rest := by
    cases hrevc : (argsort scores).reverse with
    | nil =>
      have hl0 := congrArg List.length hrevc
      rw [List.length_reverse, hlen] at hl0
      exact absurd (List.eq_nil_of_length_eq_zero hl0) h
    | cons a t => exact ⟨a, t, rfl⟩
  have hwin : winnerIdx scores = some w := by
    unfold winnerIdx index_best
    rw [hrev]
    rfl
  have hpw : (argsort scores).reverse.Pairwise (flip (argsortLe scores)) := by
    rw [List.pairwise_reverse]
    exact hsort
  rw [hrev] at hpw
  have hall : ∀ x ∈ rest, argsortLe scores x w :=
    fun x hx => List.rel_of_pairwise_cons hpw hx
  refine ⟨w, hwin, ?_, ?_⟩
  · have hwl : w ∈ (argsort scores).reverse := by
      rw [hrev]
      exact List.mem_cons_self w rest
    rw [List.mem_reverse] at hwl
    exact (hmem w).mp hwl
  · intro j hj
    have hjl : j ∈ (argsort scores).reverse := by
      rw [List.mem_reverse]
      exact (hmem j).mpr hj
    rw [hrev] at hjl
    rcases List.mem_cons.mp hjl with rfl | hjrest
    · exact ⟨le_refl _, fun _ => le_refl _⟩
    · have hr := hall j hjrest
      unfold argsortLe at hr
      rcases hr with h1 | ⟨h1, h2⟩
      · exact ⟨le_of_lt h1, fun heq => by omega⟩
      · exact ⟨le_of_eq h1, fun _ => h2⟩

/-- C3 (witness): scores 3, 7, 7: the winner exists, attains the maximum,
and is the highest tied id. -/
theorem C3_witness :
    ([3, 7, 7] : List Int) ≠ []
    ∧ ∃ w, winnerIdx [3, 7, 7] = some w ∧ w < ([3, 7, 7] : List Int).length
        ∧ ∀ j, j < ([3, 7, 7] : List Int).length →
            (([3, 7, 7] : List Int).getD j 0 ≤ ([3, 7, 7] : List Int).getD w 0
              ∧ (([3, 7, 7] : List Int).getD j 0 = ([3, 7, 7] : List Int).getD w 0
                  → j ≤ w)) :=
  ⟨by decide, C3_highest_id_wins [3, 7, 7] (by decide)⟩

/-- C4: over one job of `RandomSearchOptimizer.search`, `score_best` is the
maximum of all scores observed so far (initial evaluation included): it is a
member of the observed scores and an upper bound for them, it is
non-decreasing as further iterations run, and an iteration whose score ties
`score_best` overwrites neither `score_best` nor `pos_best`. -/
theorem C4_score_best_max (init : Nat × Int) (steps : List (Nat × Int)) :
    ((randomSearch init steps).score_best ∈ init.2 :: steps.map Prod.snd)
    ∧ (∀ s ∈ init.2 :: steps.map Prod.snd, s ≤ (randomSearch init steps).score_best)
    ∧ (∀ more, (randomSearch init steps).score_best
        ≤ (randomSearch init (steps ++ more)).score_best)
    ∧ (∀ p,
        (randomSearch init
          (steps ++ [(p, (randomSearch init steps).score_best)])).score_best
          = (randomSearch init steps).score_best
        ∧ (randomSearch init
            (steps ++ [(p, (randomSearch init steps).score_best)])).pos_best
          = (randomSearch init steps).pos_best) := by
  have hsb : ∀ l : List (Nat × Int),
      (randomSearch init l).score_best = (l.map Prod.snd).foldl max init.2 :=
    fun l => foldl_commit_score_best l (initCandidate init.1 init.2)
  refine ⟨?_, ?_, ?_, ?_⟩
  · rw [hsb]
    exact foldl_max_mem _ _
  · intro s hs
    rw [hsb]
    rcases List.mem_cons.mp hs with rfl | h
    · exact le_foldl_max _ _
    · exact mem_le_foldl_max _ _ _ h
  · intro more
    rw [hsb, hsb, List.map_append, List.foldl_append]
    exact le_foldl_max _ _
  · intro p
    have happ : randomSearch init (steps ++ [(p, (randomSearch init steps).score_best)])
        = commitStep (randomSearch init steps) p (randomSearch init steps).score_best := by
      unfold randomSearch
      rw [List.foldl_append]
      rfl
    rw [happ]
    exact commitStep_tie _ p

/-- C4 (witness): initial score 5, then scores 3 and 7: the best is one of
the observed scores and bounds the observed score 3 from above. -/
theorem C4_witness :
    (randomSearch (0, 5) [(1, 3), (2, 7)]).score_best
        ∈ ((0, 5) : Nat × Int).2 :: ([(1, 3), (2, 7)] : List (Nat × Int)).map Prod.snd
    ∧ (3 : Int) ≤ (randomSearch (0, 5) [(1, 3), (2, 7)]).score_best :=
  ⟨(C4_score_best_max (0, 5) [(1, 3), (2, 7)]).1,
   (C4_score_best_max (0, 5) [(1, 3), (2, 7)]).2.1 3 (by decide)⟩

/-- C6 (counterexample): the claim says an evaluation failure surfaces as
`EvaluationError{position, cause}` wrapped into `JobFailure{job_id, cause}`.
In the code the raw exception propagates unchanged: a run where job 0 fails
and a run where job 1 fails surface bitwise-identical failures (the bare
cause), so the surfaced failure carries neither a job id nor a position. -/
theorem C6_counterexample :
    runMultipleJobsE 2
        (fun k => if k = 0 then Except.error "boom" else Except.ok (initCandidate 0 0))
      = runMultipleJobsE 2
        (fun k => if k = 1 then Except.error "boom" else Except.ok (initCandidate 0 0))
    ∧ runMultipleJobsE 2
        (fun k => if k = 0 then Except.error "boom" else Except.ok (initCandidate 0 0))
      = Except.error "boom" := by
  exact ⟨rfl, rfl⟩

/-- C6 (amended): an evaluation failure is not silently absorbed: the first
failing evaluation aborts its job with the raw cause, and at the coordinator
a run with a failing job fails as a whole with that same raw cause (no
wrapper object, no best-effort reduction over the remaining jobs). -/
theorem C6_amended :
    (∀ (n_iter : Nat) (evals : Nat → Except String (Nat × Int)) (p : Nat × Int)
        (i : Nat) (e : String),
      i < n_iter → evals i = Except.error e →
      (∀ j, j < i → ∃ ps, evals j = Except.ok ps) →
      searchJobE n_iter evals (Except.ok p) = Except.error e)
    ∧ (∀ (n_jobs k : Nat) (e : String) (jobs : Nat → Except String Candidate),
      k < n_jobs → jobs k = Except.error e →
      (∀ j, j < k → ∃ c, jobs j = Except.ok c) →
      runMultipleJobsE n_jobs jobs = Except.error e) := by
  constructor
  · intro n_iter evals p i e hi hfail hprev
    simpa [searchJobE] using
      searchJobE_first_error evals e i hfail hprev n_iter (initCandidate p.1 p.2) hi
  · intro n_jobs k e jobs hk hfail hprev
    exact foldr_collect_first_error jobs e k hfail hprev n_jobs _ hk

/-- C6 (witness): a job whose second evaluation raises aborts with that
cause, and a three-job run whose job 2 fails fails as a whole with that
cause. -/
theorem C6_witness :
    searchJobE 2 (fun i => if i = 1 then Except.error "ev" else Except.ok (1, 1))
        (Except.ok (0, 0)) = Except.error "ev"
    ∧ runMultipleJobsE 3
        (fun k => if k = 2 then Except.error "jf" else Except.ok (initCandidate 0 0))
      = Except.error "jf" :=
  ⟨C6_amended.1 2 (fun i => if i = 1 then Except.error "ev" else Except.ok (1, 1))
      (0, 0) 1 "ev" (by decide) rfl
      (fun j hj => ⟨(1, 1), by simp [Nat.ne_of_lt hj]⟩),
   C6_amended.2 3 2 "jf"
      (fun k => if k = 2 then Except.error "jf" else Except.ok (initCandidate 0 0))
      (by decide) rfl
      (fun j hj => ⟨initCandidate 0 0, by simp [Nat.ne_of_lt hj]⟩)⟩

/-- C5: the apportioning function `_set_n_steps` gives job `k` the budget
`floor(n_iter / n_jobs)` plus one exactly when `k < n_iter % n_jobs`, and
the budgets over jobs `0 .. n_jobs - 1` sum to `n_iter` exactly, for any
`n_iter ≥ n_jobs ≥ 1`. -/
theorem C5_budget_exact (n_iter n_jobs : Nat) (h1 : 1 ≤ n_jobs)
    (h2 : n_jobs ≤ n_iter) :
    (∀ k, set_n_steps n_iter n_jobs k
        = n_iter / n_jobs + (if k < n_iter % n_jobs then 1 else 0))
    ∧ (∑ k in Finset.range n_jobs, set_n_steps n_iter n_jobs k) = n_iter := by
  have hform : ∀ k, set_n_steps n_iter n_jobs k
      = n_iter / n_jobs + (if k < n_iter % n_jobs then 1 else 0) := by
    intro k
    simp only [set_n_steps]
    split_ifs <;> omega
  refine ⟨hform, ?_⟩
  rw [Finset.sum_congr rfl (fun k _ => hform k), Finset.sum_add_distrib,
    Finset.sum_const, Finset.card_range,
    sum_indicator_lt n_jobs (n_iter % n_jobs) (le_of_lt (Nat.mod_lt n_iter h1)),
    smul_eq_mul]
  exact Nat.div_add_mod n_iter n_jobs

/-- C5 (witness): budget 10 over 3 jobs sums back to 10 and splits as
4, 3, 3; budget 7 over 4 jobs splits as 2, 2, 2, 1. -/
theorem C5_witness :
    ((1 ≤ 3 ∧ 3 ≤ 10) ∧ (∑ k in Finset.range 3, set_n_steps 10 3 k) = 10)
    ∧ (set_n_steps 10 3 0 = 4 ∧ set_n_steps 10 3 1 = 3 ∧ set_n_steps 10 3 2 = 3)
    ∧ (set_n_steps 7 4 0 = 2 ∧ set_n_steps 7 4 2 = 2 ∧ set_n_steps 7 4 3 = 1) :=
  ⟨⟨⟨by decide, by decide⟩, (C5_budget_exact 10 3 (by decide) (by decide)).2⟩,
   ⟨by decide, by decide, by decide⟩, ⟨by decide, by decide, by decide⟩⟩

/-- C7: when `n_models > n_jobs`, each job `k < n_jobs` searches
`model_list[k]`, so only the first `n_jobs` models are searched, and the
drop report is printed by exactly one of the `n_jobs` jobs (job 0). -/
theorem C7_drop_report_once (model_list : List String) (n_jobs : Nat)
    (choice : List String → String)
    (h1 : n_jobs < model_list.length) (h2 : 1 ≤ n_jobs) :
    (∀ k, k < n_jobs →
      (get_sklearn_model model_list n_jobs choice k).1 = model_list.getD k "")
    ∧ ((List.range n_jobs).countP
        (fun k => (get_sklearn_model model_list n_jobs choice k).2)) = 1 := by
  have hgt : model_list.length > n_jobs := h1
  constructor
  · intro k hk
    simp [get_sklearn_model, hgt]
  · have hcong : ∀ k ∈ List.range n_jobs,
        ((fun k => (get_sklearn_model model_list n_jobs choice k).2) k = true
          ↔ (fun k => k == 0) k = true) := by
      intro k hk
      simp [get_sklearn_model, hgt]
    rw [List.countP_congr hcong]
    obtain ⟨m, rfl⟩ : ∃ m, n_jobs = m + 1 := ⟨n_jobs - 1, by omega⟩
    rw [List.range_succ_eq_map, List.countP_cons]
    simp [List.countP_map, Function.comp_def]

/-- C7 (witness): three models, two jobs: job 1 gets model "b", and exactly
one of the two jobs prints the drop report. -/
theorem C7_witness :
    (get_sklearn_model ["a", "b", "c"] 2 (fun _ => "z") 1).1
        = (["a", "b", "c"] : List String).getD 1 ""
    ∧ ((List.range 2).countP
        (fun k => (get_sklearn_model ["a", "b", "c"] 2 (fun _ => "z") k).2)) = 1 :=
  ⟨(C7_drop_report_once ["a", "b", "c"] 2 (fun _ => "z") (by decide) (by decide)).1
      1 (by decide),
   (C7_drop_report_once ["a", "b", "c"] 2 (fun _ => "z") (by decide) (by decide)).2⟩

/-- C8: `_check_data` returns `y` unchanged for every input pair, because the
second isinstance check re-tests the already converted `X`; a DataFrame `X`
is replaced by `X.values`. -/
theorem C8_y_never_converted :
    (∀ X y : PyData, (check_data X y).2 = y)
    ∧ (∀ (v : List Int) (y : PyData),
        check_data (PyData.dataFrame v) y = (PyData.ndarray v, y)) := by
  constructor
  · intro X y
    cases X <;> rfl
  · intro v y
    rfl

/-- C9: when `n_models ≤ n_jobs`, every job with id at least `n_models` is
assigned `random.choice(model_list)` (and prints no drop report) instead of
being left idle or raising. -/
theorem C9_excess_jobs_random_choice (model_list : List String) (n_jobs : Nat)
    (choice : List String → String) (k : Nat)
    (h1 : model_list.length ≤ n_jobs) (h2 : model_list.length ≤ k) :
    get_sklearn_model model_list n_jobs choice k = (choice model_list, false) := by
  have hng : ¬ (model_list.length > n_jobs) := by omega
  have hnk : ¬ (k < model_list.length) := by omega
  simp [get_sklearn_model, hng, hnk]

/-- C9 (witness): one model, two job slots: job 1 searches the model chosen
by `random.choice` from the full list. -/
theorem C9_witness :
    get_sklearn_model ["a"] 2 (fun l => l.getD 0 "") 1 = ("a", false) :=
  C9_excess_jobs_random_choice ["a"] 2 (fun l => l.getD 0 "") 1 (by decide) (by decide)

/-- C10: for model type "keras", `fit` forces a single synchronous job
whatever `n_jobs` was requested; otherwise `n_jobs = 1` runs synchronously
and `n_jobs > 1` dispatches a pool over job ids `0 .. n_jobs - 1`. -/
theorem C10_fit_dispatch (model_type : String) (n_jobs : Nat) :
    fitDispatch "keras" n_jobs = Dispatch.single
    ∧ (model_type ≠ "keras" → n_jobs = 1 →
        fitDispatch model_type n_jobs = Dispatch.single)
    ∧ (model_type ≠ "keras" → 1 < n_jobs →
        fitDispatch model_type n_jobs = Dispatch.pool (List.range n_jobs)) := by
  refine ⟨rfl, fun h h1 => ?_, fun h h1 => ?_⟩
  · simp [fitDispatch, h, h1]
  · have hne : n_jobs ≠ 1 := by omega
    simp [fitDispatch, h, hne]

/-- C10 (witness): keras with 3 requested jobs runs single; sklearn with 1
job runs single; sklearn with 3 jobs pools over ids 0, 1, 2. -/
theorem C10_witness :
    fitDispatch "keras" 3 = Dispatch.single
    ∧ fitDispatch "sklearn" 1 = Dispatch.single
    ∧ fitDispatch "sklearn" 3 = Dispatch.pool (List.range 3) :=
  ⟨(C10_fit_dispatch "sklearn" 3).1,
   (C10_fit_dispatch "sklearn" 1).2.1 (by decide) rfl,
   (C10_fit_dispatch "sklearn" 3).2.2 (by decide) (by decide)⟩

end Hyperactive
